import Mathlib

/-
Verification of the composite IPR (Inflow Performance Relationship) engine in
src/IPR.py against its specification.

The numerical core of the program is the function `calculate_q` (lines 19-37):
it first solves for the productivity index J from the single test observation
(lines 21-29), then evaluates the flow rate at the requested pressure with that
index (lines 32-37).  Lines 40-41 sample the curve with `np.linspace(0, pr, 100)`
and a list comprehension, and lines 67-68 recompute J (`j_disp`) for display.

Embedding conventions:
- Python numbers are embedded as exact rationals (ℚ).
- Python raises `ZeroDivisionError` on division by zero; a division whose
  denominator may vanish is embedded in `Option`, with `none` standing for the
  raised exception.  Alongside the `Option`-valued functions we keep total ℚ
  versions (Lean's `x / 0 = 0` convention); lemmas connect the two wherever a
  hypothesis rules the zero denominator out.
-/

namespace IPR

/-- Checked division: Python raises `ZeroDivisionError` when the denominator is
zero, modelled as `none`. -/
def checkedDiv (a b : ℚ) : Option ℚ :=
  if b = 0 then none else some (a / b)

/-- The Vogel quadratic factor `1 - 0.2*(x/pb) - 0.8*(x/pb)**2` computed at
src/IPR.py lines 28 and 36 (and inline at line 68). -/
def vogel_term (x pb : ℚ) : ℚ :=
  1 - 0.2 * (x / pb) - 0.8 * (x / pb) ^ 2

/-- The branch condition `pwf_test >= pb` of src/IPR.py line 21 (the evaluator
reuses the same shape at line 32 with `p_val`): `true` selects the linear
branch, `false` the composite/Vogel branch. -/
def test_in_linear (pb pwf_test : ℚ) : Bool :=
  decide (pwf_test ≥ pb)

/-- Productivity-index computation of src/IPR.py lines 21-29, total version
(Lean's `x / 0 = 0` convention in place of `ZeroDivisionError`). -/
def j_solve (pr pb q_test pwf_test : ℚ) : ℚ :=
  if pwf_test ≥ pb then
    q_test / (pr - pwf_test)
  else
    q_test / ((pr - pb) + (pb / 1.8) * vogel_term pwf_test pb)

/-- Productivity-index computation of src/IPR.py lines 21-29 with Python's
division-by-zero behaviour made explicit: in the composite branch the division
by `pb` inside `vogel_term` is evaluated first (line 28), then the division by
the composite denominator (line 29). -/
def j_solve? (pr pb q_test pwf_test : ℚ) : Option ℚ :=
  if pwf_test ≥ pb then
    checkedDiv q_test (pr - pwf_test)
  else if pb = 0 then
    none
  else
    checkedDiv q_test ((pr - pb) + (pb / 1.8) * vogel_term pwf_test pb)

/-- Rate evaluation of src/IPR.py lines 32-37 at pressure `p_val` given the
index `j`, total version. -/
def rate_at (p_val pr pb j : ℚ) : ℚ :=
  if p_val ≥ pb then
    j * (pr - p_val)
  else
    j * (pr - pb) + (j * pb / 1.8) * vogel_term p_val pb

/-- Rate evaluation of src/IPR.py lines 32-37 with the division by `pb` in the
Vogel branch (line 36) made explicit. -/
def rate_at? (p_val pr pb j : ℚ) : Option ℚ :=
  if p_val ≥ pb then
    some (j * (pr - p_val))
  else if pb = 0 then
    none
  else
    some (j * (pr - pb) + (j * pb / 1.8) * vogel_term p_val pb)

/-- The whole of `calculate_q` (src/IPR.py lines 19-37): solve J from the test
point, then evaluate the rate at `p_val`, total version. -/
def calculate_q (p_val pr pb q_test pwf_test : ℚ) : ℚ :=
  rate_at p_val pr pb (j_solve pr pb q_test pwf_test)

/-- The whole of `calculate_q` (src/IPR.py lines 19-37) with Python's
division-by-zero behaviour made explicit. -/
def calculate_q? (p_val pr pb q_test pwf_test : ℚ) : Option ℚ :=
  Option.bind (j_solve? pr pb q_test pwf_test) (fun j => rate_at? p_val pr pb j)

/-- The display-side productivity index `j_disp` of src/IPR.py lines 67-68,
transcribed with its Vogel factor inlined exactly as written there. -/
def j_disp? (pr pb q_test pwf_test : ℚ) : Option ℚ :=
  if pwf_test ≥ pb then
    checkedDiv q_test (pr - pwf_test)
  else if pb = 0 then
    none
  else
    checkedDiv q_test
      ((pr - pb) + (pb / 1.8) * (1 - 0.2 * (pwf_test / pb) - 0.8 * (pwf_test / pb) ^ 2))

/-- The sampled pressure grid `np.linspace(0, pr, 100)` of src/IPR.py line 40,
with the point count `n` (fixed to 100 in the source) kept as a parameter:
`n` evenly spaced values from `0` to `pr` inclusive. -/
def pwf_range (pr : ℚ) (n : ℕ) : List ℚ :=
  (List.range n).map (fun i : ℕ => pr * (i : ℚ) / ((n : ℚ) - 1))

/-- The sampled rate curve `q_curve` of src/IPR.py line 41: `calculate_q`
mapped over the pressure grid. -/
def q_curve (pr pb q_test pwf_test : ℚ) (n : ℕ) : List ℚ :=
  (pwf_range pr n).map (fun p => calculate_q p pr pb q_test pwf_test)

end IPR

namespace IPR

/-- The Vogel factor is strictly positive strictly below the bubble point:
for `0 ≤ x < pb`, `1 - 0.2*(x/pb) - 0.8*(x/pb)^2 > 0`. -/
lemma vogel_term_pos (x pb : ℚ) (hx : 0 ≤ x) (hxb : x < pb) :
    0 < vogel_term x pb := by
  have hpb : 0 < pb := lt_of_le_of_lt hx hxb
  have ht0 : 0 ≤ x / pb := div_nonneg hx hpb.le
  have ht1 : x / pb < 1 := (div_lt_one hpb).mpr hxb
  unfold vogel_term
  nlinarith [ht0, ht1]

/-- The composite-branch denominator of line 29 is strictly positive whenever
the test point lies strictly below the bubble point and `pb ≤ pr`. -/
lemma comp_denom_pos (pr pb x : ℚ) (hx : 0 ≤ x) (hxb : x < pb) (hbr : pb ≤ pr) :
    0 < (pr - pb) + (pb / 1.8) * vogel_term x pb := by
  have hpb : 0 < pb := lt_of_le_of_lt hx hxb
  have hv := vogel_term_pos x pb hx hxb
  have hm : 0 < (pb / 1.8) * vogel_term x pb :=
    mul_pos (by positivity) hv
  linarith

/-- On valid calibration inputs the checked solver succeeds and agrees with the
total solver, and the solved index is strictly positive. -/
lemma j_solve_spec (pr pb pwf_test q_test : ℚ)
    (hq : 0 < q_test) (hw0 : 0 ≤ pwf_test) (hwr : pwf_test < pr)
    (hpb0 : 0 ≤ pb) (hpbr : pb ≤ pr) :
    j_solve? pr pb q_test pwf_test = some (j_solve pr pb q_test pwf_test) ∧
    0 < j_solve pr pb q_test pwf_test := by
  by_cases hlin : pwf_test ≥ pb
  · have hpos : 0 < pr - pwf_test := by linarith
    constructor
    · unfold j_solve? j_solve checkedDiv
      simp [hlin, ne_of_gt hpos]
    · unfold j_solve
      rw [if_pos hlin]
      exact div_pos hq hpos
  · push_neg at hlin
    have hpb : 0 < pb := lt_of_le_of_lt hw0 hlin
    have hD := comp_denom_pos pr pb pwf_test hw0 hlin hpbr
    constructor
    · unfold j_solve? j_solve checkedDiv
      simp [not_le.mpr hlin, hpb.ne', ne_of_gt hD]
    · unfold j_solve
      rw [if_neg (not_le.mpr hlin)]
      exact div_pos hq hD

/-- Closed form of the `i`-th sampled pressure of line 40. -/
lemma pwf_range_getD (pr : ℚ) (n i : ℕ) (hi : i < n) :
    (pwf_range pr n).getD i 0 = pr * (i : ℚ) / ((n : ℚ) - 1) := by
  unfold pwf_range
  rw [List.getD_eq_getElem?_getD, List.getElem?_map, List.getElem?_range hi]
  rfl

/-- The `i`-th sampled rate of line 41 is `calculate_q` at the `i`-th sampled
pressure. -/
lemma q_curve_getD (pr pb q_test pwf_test : ℚ) (n i : ℕ) (hi : i < n) :
    (q_curve pr pb q_test pwf_test n).getD i 0
      = calculate_q ((pwf_range pr n).getD i 0) pr pb q_test pwf_test := by
  unfold q_curve
  rw [List.getD_eq_getElem?_getD, List.getElem?_map]
  have hlen : i < (pwf_range pr n).length := by
    unfold pwf_range
    simpa using hi
  rw [List.getElem?_eq_getElem hlen]
  rw [List.getD_eq_getElem?_getD, List.getElem?_eq_getElem hlen]
  rfl

/-- C1: round-trip calibration.  For every valid input (`pr > 0`,
`0 ≤ pb ≤ pr`, `0 ≤ pwf_test < pr`, `q_test > 0`), evaluating the rate at
`p = pwf_test` with the productivity index solved from that same test
observation returns exactly `q_test`; the proof covers both the linear branch
(`pwf_test ≥ pb`) and the composite branch (`pwf_test < pb`). -/
theorem solve_rate_round_trip (pr pb pwf_test q_test : ℚ)
    (hpr : 0 < pr) (hpb0 : 0 ≤ pb) (hpbr : pb ≤ pr)
    (hw0 : 0 ≤ pwf_test) (hwr : pwf_test < pr) (hq : 0 < q_test) :
    calculate_q? pwf_test pr pb q_test pwf_test = some q_test := by
  by_cases hlin : pwf_test ≥ pb
  · have hne : pr - pwf_test ≠ 0 := by intro h; linarith [sub_eq_zero.mp h]
    unfold calculate_q? j_solve? rate_at? checkedDiv
    simp [hlin, hne]
  · push_neg at hlin
    have hpb : 0 < pb := lt_of_le_of_lt hw0 hlin
    have hD := comp_denom_pos pr pb pwf_test hw0 hlin hpbr
    have hDne : (pr - pb) + (pb / 1.8) * vogel_term pwf_test pb ≠ 0 := ne_of_gt hD
    have hj : j_solve? pr pb q_test pwf_test
        = some (q_test / ((pr - pb) + (pb / 1.8) * vogel_term pwf_test pb)) := by
      unfold j_solve? checkedDiv
      simp [not_le.mpr hlin, hpb.ne', hDne]
    have hr : rate_at? pwf_test pr pb
        (q_test / ((pr - pb) + (pb / 1.8) * vogel_term pwf_test pb)) = some q_test := by
      unfold rate_at?
      rw [if_neg (not_le.mpr hlin), if_neg hpb.ne']
      congr 1
      have expand : q_test / ((pr - pb) + (pb / 1.8) * vogel_term pwf_test pb) * (pr - pb) +
          q_test / ((pr - pb) + (pb / 1.8) * vogel_term pwf_test pb) * pb / 1.8 *
            vogel_term pwf_test pb
          = q_test / ((pr - pb) + (pb / 1.8) * vogel_term pwf_test pb) *
            ((pr - pb) + (pb / 1.8) * vogel_term pwf_test pb) := by ring
      rw [expand, div_mul_cancel₀ _ hDne]
    unfold calculate_q?
    rw [hj]
    simpa using hr

/-- C1 witness: the composite-branch scenario of the spec, `pr = 2500`,
`pb = 1000`, `pwf_test = 800`, `q_test = 350`, round-trips exactly. -/
theorem solve_rate_round_trip_witness :
    (0 : ℚ) < 2500 ∧ (0 : ℚ) ≤ 1000 ∧ (1000 : ℚ) ≤ 2500 ∧ (0 : ℚ) ≤ 800 ∧
    (800 : ℚ) < 2500 ∧ (0 : ℚ) < 350 ∧
    calculate_q? 800 2500 1000 350 800 = some 350 :=
  ⟨by norm_num, by norm_num, by norm_num, by norm_num, by norm_num, by norm_num,
    solve_rate_round_trip 2500 1000 800 350 (by norm_num) (by norm_num) (by norm_num)
      (by norm_num) (by norm_num) (by norm_num)⟩

/-- C2 counterexample: at the regime boundary the Vogel factor is `0`, not `1`
as the claim states: `vogel_term pb pb = 1 - 0.2 - 0.8 = 0` at `pb = 1000`. -/
theorem vogel_term_at_pb_cex :
    vogel_term 1000 1000 = 0 ∧ vogel_term 1000 1000 ≠ 1 := by
  constructor <;> norm_num [vogel_term]

/-- C2 amended: for every `pr`, `0 < pb ≤ pr` and `J`, the linear formula and
the Vogel formula agree when both are evaluated at `p = pb`, because the
`vogel_term` equals `0` there (the Vogel increment vanishes). -/
theorem boundary_continuity (pr pb j : ℚ) (hpb : 0 < pb) (hpbr : pb ≤ pr) :
    rate_at pb pr pb j = j * (pr - pb) + (j * pb / 1.8) * vogel_term pb pb ∧
    vogel_term pb pb = 0 := by
  have hv : vogel_term pb pb = 0 := by
    unfold vogel_term
    rw [div_self hpb.ne']
    norm_num
  constructor
  · unfold rate_at
    rw [if_pos le_rfl, hv]
    ring
  · exact hv

/-- C2 amended witness: at `pr = 2500`, `pb = 1000`, `J = 7/10` both formulas
agree at `p = pb`, the Vogel factor being `0` there. -/
theorem boundary_continuity_witness :
    (0 : ℚ) < 1000 ∧ (1000 : ℚ) ≤ 2500 ∧
    (rate_at 1000 2500 1000 (7 / 10)
        = 7 / 10 * (2500 - 1000) + (7 / 10 * 1000 / 1.8) * vogel_term 1000 1000 ∧
      vogel_term 1000 1000 = 0) :=
  ⟨by norm_num, by norm_num, boundary_continuity 2500 1000 (7 / 10) (by norm_num) (by norm_num)⟩

/-- C3: with `pwf_test = pr` (zero test drawdown) the engine signals the
degenerate-drawdown error — the division `q_test / (pr - pwf_test)` raises
`ZeroDivisionError` in Python, embedded here as `none`; no numeric infinity or
NaN is produced. -/
theorem degenerate_drawdown_none (p pr pb q_test : ℚ) (hpbr : pb ≤ pr) :
    calculate_q? p pr pb q_test pr = none := by
  unfold calculate_q? j_solve? checkedDiv
  simp [hpbr]

/-- C3 witness: at `pr = 2500`, `pb = 1000`, `q_test = 350`, `pwf_test = 2500`
the evaluation at any target (here `1850`) signals the error. -/
theorem degenerate_drawdown_none_witness :
    (1000 : ℚ) ≤ 2500 ∧ calculate_q? 1850 2500 1000 350 2500 = none :=
  ⟨by norm_num, degenerate_drawdown_none 1850 2500 1000 350 (by norm_num)⟩

/-- C4 counterexample: with `pb = pr = 2500` and the in-range test pressure
`pwf_test = 2000`, the solver's branch condition `pwf_test ≥ pb` is false, it
executes the composite/Vogel branch, and the solved index `63/82` differs from
the linear formula `350 / (2500 - 2000) = 7/10` the claim asserts. -/
theorem pb_eq_pr_composite_cex :
    test_in_linear 2500 2000 = false ∧
    j_solve? 2500 2500 350 2000 = some (63 / 82) ∧
    (63 / 82 : ℚ) ≠ 350 / (2500 - 2000) := by
  refine ⟨by norm_num [test_in_linear], ?_, by norm_num⟩
  norm_num [j_solve?, checkedDiv, vogel_term]

/-- C4 amended: when `pb = pr`, the solver takes the linear branch only at
`pwf_test = pr`; for every in-range test pressure `0 ≤ pwf_test < pr` the
composite/Vogel branch executes, and (since `pr - pb = 0`) the solved index is
the pure Vogel one, `q_test / ((pb/1.8) * vogel_term)`. -/
theorem pb_eq_pr_composite_branch (pr pb pwf_test q_test : ℚ)
    (hb : pb = pr) (h0 : 0 ≤ pwf_test) (hlt : pwf_test < pr) :
    test_in_linear pb pwf_test = false ∧
    j_solve? pr pb q_test pwf_test
      = checkedDiv q_test ((pb / 1.8) * vogel_term pwf_test pb) := by
  subst hb
  have hpb : 0 < pb := lt_of_le_of_lt h0 hlt
  constructor
  · simp only [test_in_linear, decide_eq_false_iff_not]
    exact not_le.mpr hlt
  · unfold j_solve?
    rw [if_neg (not_le.mpr hlt), if_neg hpb.ne']
    congr 1
    ring

/-- C4 amended witness: `pb = pr = 2500`, `pwf_test = 2000`, `q_test = 350`. -/
theorem pb_eq_pr_composite_branch_witness :
    (2500 : ℚ) = 2500 ∧ (0 : ℚ) ≤ 2000 ∧ (2000 : ℚ) < 2500 ∧
    (test_in_linear 2500 2000 = false ∧
      j_solve? 2500 2500 350 2000
        = checkedDiv 350 ((2500 / 1.8) * vogel_term 2000 2500)) :=
  ⟨rfl, by norm_num, by norm_num,
    pb_eq_pr_composite_branch 2500 2500 2000 350 rfl (by norm_num) (by norm_num)⟩

end IPR

namespace IPR

/-- C5: with `pb = 0`, for every `pwf_test ≥ 0` and evaluation pressure
`p ≥ 0`, the branch condition `≥ pb` holds at both the solver and the
evaluator, so only the linear branch is reachable and the whole computation
reduces to the linear pipeline — the Vogel branch, and with it the division by
`pb`, is never executed.  No guard is involved: the conclusion follows from the
branch condition alone. -/
theorem pb_zero_linear_only (p pr pwf_test q_test : ℚ)
    (h0 : 0 ≤ pwf_test) (hp : 0 ≤ p) :
    test_in_linear 0 pwf_test = true ∧ test_in_linear 0 p = true ∧
    calculate_q? p pr 0 q_test pwf_test
      = Option.map (fun j => j * (pr - p)) (checkedDiv q_test (pr - pwf_test)) := by
  refine ⟨?_, ?_, ?_⟩
  · simp only [test_in_linear, decide_eq_true_eq]
    exact h0
  · simp only [test_in_linear, decide_eq_true_eq]
    exact hp
  · unfold calculate_q? j_solve?
    rw [if_pos h0]
    cases hcd : checkedDiv q_test (pr - pwf_test) <;> simp [rate_at?, hp]

/-- C5 witness: `pb = 0`, `pr = 2500`, `pwf_test = 2000`, `q_test = 350`,
`p = 1850`: both branch conditions select the linear branch and the result is
the linear pipeline value. -/
theorem pb_zero_linear_only_witness :
    (0 : ℚ) ≤ 2000 ∧ (0 : ℚ) ≤ 1850 ∧
    (test_in_linear 0 2000 = true ∧ test_in_linear 0 1850 = true ∧
      calculate_q? 1850 2500 0 350 2000
        = Option.map (fun j => j * (2500 - 1850)) (checkedDiv 350 (2500 - 2000))) :=
  ⟨by norm_num, by norm_num,
    pb_zero_linear_only 1850 2500 2000 350 (by norm_num) (by norm_num)⟩

/-- C6: monotonicity of the evaluator.  For fixed `pr > 0`, `0 ≤ pb ≤ pr` and
`J > 0`, and pressures `0 ≤ p1 ≤ p2 ≤ pr`, the evaluated rate at `p1` is at
least the evaluated rate at `p2`: the rate is non-increasing in pressure
across both regimes and across the regime boundary. -/
theorem rate_at_antitone (pr pb j p1 p2 : ℚ)
    (hpr : 0 < pr) (hpb0 : 0 ≤ pb) (hpbr : pb ≤ pr) (hj : 0 < j)
    (h1 : 0 ≤ p1) (h12 : p1 ≤ p2) (h2 : p2 ≤ pr) :
    rate_at p2 pr pb j ≤ rate_at p1 pr pb j := by
  by_cases hb1 : p1 ≥ pb
  · have hb2 : p2 ≥ pb := le_trans hb1 h12
    unfold rate_at
    rw [if_pos hb1, if_pos hb2]
    nlinarith
  · push_neg at hb1
    have hpb : 0 < pb := lt_of_le_of_lt h1 hb1
    by_cases hb2 : p2 ≥ pb
    · unfold rate_at
      rw [if_pos hb2, if_neg (not_le.mpr hb1)]
      have hv := vogel_term_pos p1 pb h1 hb1
      have hc : 0 < j * pb / 1.8 := by positivity
      have hA : j * (pr - p2) ≤ j * (pr - pb) := by nlinarith
      have hB : 0 < (j * pb / 1.8) * vogel_term p1 pb := mul_pos hc hv
      linarith
    · push_neg at hb2
      unfold rate_at
      rw [if_neg (not_le.mpr hb1), if_neg (not_le.mpr hb2)]
      have key : vogel_term p2 pb ≤ vogel_term p1 pb := by
        unfold vogel_term
        have ht1 : 0 ≤ p1 / pb := div_nonneg h1 hpb.le
        have ht12 : p1 / pb ≤ p2 / pb := by gcongr
        nlinarith [ht1, ht12]
      have hc : 0 ≤ j * pb / 1.8 := by positivity
      nlinarith [mul_le_mul_of_nonneg_left key hc]

/-- C6 witness: at `pr = 2500`, `pb = 1000`, `J = 7/10`, the rate at
`p2 = 2000` is at most the rate at `p1 = 800` (a pair straddling the bubble
point). -/
theorem rate_at_antitone_witness :
    (0 : ℚ) < 2500 ∧ (0 : ℚ) ≤ 1000 ∧ (1000 : ℚ) ≤ 2500 ∧ (0 : ℚ) < 7 / 10 ∧
    (0 : ℚ) ≤ 800 ∧ (800 : ℚ) ≤ 2000 ∧ (2000 : ℚ) ≤ 2500 ∧
    rate_at 2000 2500 1000 (7 / 10) ≤ rate_at 800 2500 1000 (7 / 10) :=
  ⟨by norm_num, by norm_num, by norm_num, by norm_num, by norm_num, by norm_num, by norm_num,
    rate_at_antitone 2500 1000 (7 / 10) 800 2000 (by norm_num) (by norm_num) (by norm_num)
      (by norm_num) (by norm_num) (by norm_num) (by norm_num)⟩

/-- C7: positivity of the solved productivity index.  For `q_test > 0`,
`0 ≤ pwf_test < pr` and `0 ≤ pb ≤ pr`, the solver succeeds and the solved `J`
is strictly positive, in both the linear branch and the composite branch
(whose denominator `(pr - pb) + (pb/1.8) * vogel_term` is strictly positive
when `pwf_test < pb`). -/
theorem j_solve_positive (pr pb pwf_test q_test : ℚ)
    (hq : 0 < q_test) (hw0 : 0 ≤ pwf_test) (hwr : pwf_test < pr)
    (hpb0 : 0 ≤ pb) (hpbr : pb ≤ pr) :
    j_solve? pr pb q_test pwf_test = some (j_solve pr pb q_test pwf_test) ∧
    0 < j_solve pr pb q_test pwf_test :=
  j_solve_spec pr pb pwf_test q_test hq hw0 hwr hpb0 hpbr

/-- C7 witness: the composite-branch input `pr = 2500`, `pb = 1000`,
`pwf_test = 800`, `q_test = 350` yields a strictly positive index. -/
theorem j_solve_positive_witness :
    (0 : ℚ) < 350 ∧ (0 : ℚ) ≤ 800 ∧ (800 : ℚ) < 2500 ∧ (0 : ℚ) ≤ 1000 ∧
    (1000 : ℚ) ≤ 2500 ∧
    (j_solve? 2500 1000 350 800 = some (j_solve 2500 1000 350 800) ∧
      0 < j_solve 2500 1000 350 800) :=
  ⟨by norm_num, by norm_num, by norm_num, by norm_num, by norm_num,
    j_solve_positive 2500 1000 800 350 (by norm_num) (by norm_num) (by norm_num)
      (by norm_num) (by norm_num)⟩

/-- C8 counterexample: at the out-of-range target `p = 2600 > pr = 2500` (with
`pb = 1000`, `q_test = 350`, `pwf_test = 2000`) the evaluator signals no error
at all: it returns the extrapolated value `some (-70)`. -/
theorem out_of_range_returns_value_cex :
    calculate_q? 2600 2500 1000 350 2000 = some (-70) := by
  norm_num [calculate_q?, j_solve?, rate_at?, checkedDiv, vogel_term]

/-- C8 amended: for a target pressure `p > pr` (and valid calibration inputs)
the evaluator does not signal an error: it applies the linear branch unchanged
and returns the extrapolated rate `J * (pr - p)`, which is strictly negative.
Range enforcement is left to the caller (the UI clamps the target input to
`[0, pr]`). -/
theorem out_of_range_extrapolates (p pr pb pwf_test q_test : ℚ)
    (hq : 0 < q_test) (h0 : 0 ≤ pwf_test) (hlt : pwf_test < pr)
    (hpb0 : 0 ≤ pb) (hpbr : pb ≤ pr) (hp : pr < p) :
    calculate_q? p pr pb q_test pwf_test
      = some (j_solve pr pb q_test pwf_test * (pr - p)) ∧
    j_solve pr pb q_test pwf_test * (pr - p) < 0 := by
  obtain ⟨hj, hjpos⟩ := j_solve_spec pr pb pwf_test q_test hq h0 hlt hpb0 hpbr
  have hpbp : p ≥ pb := le_trans hpbr hp.le
  constructor
  · unfold calculate_q?
    simp [hj, rate_at?, hpbp]
  · have hneg : pr - p < 0 := by linarith
    exact mul_neg_of_pos_of_neg hjpos hneg

/-- C8 amended witness: at `p = 2600 > pr = 2500` the evaluator returns the
negative extrapolated linear value. -/
theorem out_of_range_extrapolates_witness :
    (0 : ℚ) < 350 ∧ (0 : ℚ) ≤ 2000 ∧ (2000 : ℚ) < 2500 ∧ (0 : ℚ) ≤ 1000 ∧
    (1000 : ℚ) ≤ 2500 ∧ (2500 : ℚ) < 2600 ∧
    (calculate_q? 2600 2500 1000 350 2000
        = some (j_solve 2500 1000 350 2000 * (2500 - 2600)) ∧
      j_solve 2500 1000 350 2000 * (2500 - 2600) < 0) :=
  ⟨by norm_num, by norm_num, by norm_num, by norm_num, by norm_num, by norm_num,
    out_of_range_extrapolates 2600 2500 1000 2000 350 (by norm_num) (by norm_num)
      (by norm_num) (by norm_num) (by norm_num) (by norm_num)⟩

end IPR

namespace IPR

/-- C9: curve sampling.  For `pr > 0` and point count `n ≥ 2` (the source uses
`n = 100`), the sampled grid has exactly `n` points, starts at `0`, ends at
`pr`, is strictly increasing with constant spacing `pr / (n - 1)`, and the
sampled curve has exactly `n` rates, the `i`-th being the rate evaluator at the
`i`-th pressure with the index solved once from the test observation. -/
theorem sample_curve_spec (pr pb q_test pwf_test : ℚ) (n : ℕ)
    (hpr : 0 < pr) (hn : 2 ≤ n) :
    (pwf_range pr n).length = n ∧
    (q_curve pr pb q_test pwf_test n).length = n ∧
    (pwf_range pr n).getD 0 0 = 0 ∧
    (pwf_range pr n).getD (n - 1) 0 = pr ∧
    (∀ i j, i < j → j < n →
      (pwf_range pr n).getD i 0 < (pwf_range pr n).getD j 0) ∧
    (∀ i, i + 1 < n →
      (pwf_range pr n).getD (i + 1) 0 - (pwf_range pr n).getD i 0 = pr / ((n : ℚ) - 1)) ∧
    (∀ i, i < n → (q_curve pr pb q_test pwf_test n).getD i 0
      = rate_at ((pwf_range pr n).getD i 0) pr pb (j_solve pr pb q_test pwf_test)) := by
  have hn1 : 1 ≤ n := le_trans (by norm_num) hn
  have hnQ : (2 : ℚ) ≤ (n : ℚ) := by exact_mod_cast hn
  have hden : (0 : ℚ) < (n : ℚ) - 1 := by linarith
  refine ⟨?_, ?_, ?_, ?_, ?_, ?_, ?_⟩
  · unfold pwf_range
    simp
  · unfold q_curve pwf_range
    simp
  · rw [pwf_range_getD pr n 0 (by omega)]
    simp
  · rw [pwf_range_getD pr n (n - 1) (by omega)]
    have hcast : ((n - 1 : ℕ) : ℚ) = (n : ℚ) - 1 := by
      have := Nat.cast_sub hn1 (R := ℚ)
      simpa using this
    rw [hcast, mul_div_assoc, div_self hden.ne', mul_one]
  · intro i j hij hj
    rw [pwf_range_getD pr n i (lt_trans hij hj), pwf_range_getD pr n j hj]
    have hc : (i : ℚ) < (j : ℚ) := by exact_mod_cast hij
    gcongr
  · intro i hi
    rw [pwf_range_getD pr n (i + 1) hi, pwf_range_getD pr n i (by omega)]
    rw [div_sub_div_same]
    congr 1
    push_cast
    ring
  · intro i hi
    rw [q_curve_getD pr pb q_test pwf_test n i hi]
    rfl

/-- C9 witness: the source's own configuration, `pr = 2500`, `pb = 1000`,
`q_test = 350`, `pwf_test = 2000`, `n = 100`. -/
theorem sample_curve_spec_witness :
    (0 : ℚ) < 2500 ∧ 2 ≤ 100 ∧
    ((pwf_range 2500 100).length = 100 ∧
      (q_curve 2500 1000 350 2000 100).length = 100 ∧
      (pwf_range 2500 100).getD 0 0 = 0 ∧
      (pwf_range 2500 100).getD (100 - 1) 0 = 2500 ∧
      (∀ i j, i < j → j < 100 →
        (pwf_range 2500 100).getD i 0 < (pwf_range 2500 100).getD j 0) ∧
      (∀ i, i + 1 < 100 →
        (pwf_range 2500 100).getD (i + 1) 0 - (pwf_range 2500 100).getD i 0
          = 2500 / (((100 : ℕ) : ℚ) - 1)) ∧
      (∀ i, i < 100 → (q_curve 2500 1000 350 2000 100).getD i 0
        = rate_at ((pwf_range 2500 100).getD i 0) 2500 1000 (j_solve 2500 1000 350 2000))) :=
  ⟨by norm_num, by norm_num,
    sample_curve_spec 2500 1000 350 2000 100 (by norm_num) (by norm_num)⟩

/-- C10: the display-side productivity index `j_disp` of lines 67-68 is
extensionally equal to the index computed inside `calculate_q` at lines 21-29:
for every input both select the same branch and yield the same result
(including the same division-by-zero failures). -/
theorem j_disp_eq_j_solve (pr pb q_test pwf_test : ℚ) :
    j_disp? pr pb q_test pwf_test = j_solve? pr pb q_test pwf_test := rfl

end IPR
